import Mathlib

/-!
Verification of the polars-constraint-scheduler Python adapter
(src/polars-scheduler-py/python/polars_scheduler/__init__.py) against its
specification.  The data-frame values are embedded shallowly: a cell is a
dynamic value `DVal`, a column type is a `DType`, a row is a `List DVal`
aligned positionally with the nine-field schema.  The scheduling engine
itself (a Rust plugin) is not part of the source fragment; the parts of it
that claims need are modelled from the specification and marked as such.
-/

/-- Polars column data types used by the scheduler schema. -/
inductive DType
  | str
  | f64
  | i64
  | listStr
  deriving DecidableEq, Repr

/-- A dynamic cell value as held by a polars column.  Reals are modelled as
rationals (the adapter never computes with them; they are carried through). -/
inductive DVal
  | null
  | vStr (s : String)
  | vF (q : ℚ)
  | vI (n : ℤ)
  | vList (l : List String)
  deriving DecidableEq, Repr

/-- Whether a dynamic value inhabits a column type (null inhabits all, as every
polars column is nullable). -/
def typeMatches (v : DVal) (dt : DType) : Bool :=
  match v, dt with
  | .null, _ => true
  | .vStr _, .str => true
  | .vF _, .f64 => true
  | .vI _, .i64 => true
  | .vList _, .listStr => true
  | _, _ => false

/-- Strict value coercion performed when a polars DataFrame is rebuilt from
dicts with an explicit schema: exact type matches pass, integers widen to
floats, anything else fails. -/
def coerceVal (v : DVal) (dt : DType) : Option DVal :=
  match v, dt with
  | .null, _ => some .null
  | .vStr s, .str => some (.vStr s)
  | .vF q, .f64 => some (.vF q)
  | .vI n, .i64 => some (.vI n)
  | .vI n, .f64 => some (.vF (n : ℚ))
  | .vList l, .listStr => some (.vList l)
  | _, _ => none

/-- `Scheduler._schema`: the nine-field event schema, in column order. -/
def _schema : List (String × DType) :=
  [("Event", .str), ("Category", .str), ("Unit", .str),
   ("Amount", .f64), ("Divisor", .i64), ("Frequency", .str),
   ("Constraints", .listStr), ("Windows", .listStr), ("Note", .str)]

/-- A row conforms to a schema when it has one cell per column and each cell
inhabits the column type. -/
def rowConforms : List (String × DType) → List DVal → Bool
  | [], [] => true
  | c :: cs, v :: vs => typeMatches v c.2 && rowConforms cs vs
  | _, _ => false

/-- A polars DataFrame: a named, typed schema plus positional rows. -/
structure DataFrame where
  schema : List (String × DType)
  rows : List (List DVal)
  deriving DecidableEq, Repr

/-- Polars invariant: every row of a DataFrame conforms to its schema. -/
def dfWF (d : DataFrame) : Bool :=
  d.rows.all (rowConforms d.schema)

/-- `df.to_dicts()` for one row: pair each cell with its column name. -/
def rowToDict (schema : List (String × DType)) (r : List DVal) :
    List (String × DVal) :=
  (schema.map Prod.fst).zip r

/-- Look a column up in a dict row; a missing key reads as null (polars fills
missing dict keys with null when a target schema is given). -/
def dictGet (dict : List (String × DVal)) (name : String) : DVal :=
  match dict.find? (fun p => p.1 = name) with
  | some p => p.2
  | none => .null

/-- Rebuild one row under the target schema from a dict row, coercing each
cell strictly; fails when a cell cannot be coerced. -/
def castRow : List (String × DType) → List (String × DVal) →
    Option (List DVal)
  | [], _ => some []
  | c :: cs, dict => do
    let v ← coerceVal (dictGet dict c.1) c.2
    let rest ← castRow cs dict
    pure (v :: rest)

/-- Rebuild every row of a table under the scheduler schema. -/
def castAllRows (schema : List (String × DType)) :
    List (List DVal) → Option (List (List DVal))
  | [] => some []
  | r :: rs => do
    let r2 ← castRow _schema (rowToDict schema r)
    let rest ← castAllRows schema rs
    pure (r2 :: rest)

/-- `pl.DataFrame(df.to_dicts(), schema=_schema)`: rebuild every row under the
scheduler schema. -/
def castRows (d : DataFrame) : Option (List (List DVal)) :=
  castAllRows d.schema d.rows

/-- The dtype a schema assigns to a column name, if any. -/
def schemaLookup (s : List (String × DType)) (name : String) : Option DType :=
  (s.find? (fun c => c.1 = name)).map Prod.snd

/-- The Python check `df.schema == self._schema`: mapping equality of
schemas.  Python compares dicts order-insensitively, so two schemas are
equal when they assign the same dtype to the same column names, regardless
of column order. -/
def schemaEqAsMapping (s1 s2 : List (String × DType)) : Bool :=
  (s1.map Prod.fst).all (fun n => schemaLookup s2 n = schemaLookup s1 n) &&
    (s2.map Prod.fst).all (fun n => schemaLookup s1 n = schemaLookup s2 n)

/-- `Scheduler.__init__`: absent or empty input gives a fresh empty table
with the scheduler schema; a table whose schema already equals the scheduler
schema as a mapping is kept as-is (including its own column order);
otherwise the table is rebuilt from its dicts under the scheduler schema
(which can fail on incompatible cells). -/
def schedulerInit (df : Option DataFrame) : Option DataFrame :=
  match df with
  | none => some ⟨_schema, []⟩
  | some d =>
    if d.rows.length = 0 then some ⟨_schema, []⟩
    else if schemaEqAsMapping d.schema _schema then some d
    else (castRows d).map (fun rows => ⟨_schema, rows⟩)

/-- The row built by `Scheduler.add` after its argument defaulting: None
constraints and windows become empty lists, None frequency becomes
"1x daily", the remaining optionals are stored as nulls. -/
def addRow (event category unit : String) (amount : Option ℚ)
    (divisor : Option ℤ) (frequency : Option String)
    (constraints windows : Option (List String)) (note : Option String) :
    List DVal :=
  [.vStr event, .vStr category, .vStr unit,
   amount.elim .null .vF,
   divisor.elim .null .vI,
   .vStr (frequency.getD "1x daily"),
   .vList (constraints.getD []),
   .vList (windows.getD []),
   note.elim .null .vStr]

/-- `Scheduler.add`: vertically concatenate the existing rows with the one new
row. -/
def schedulerAdd (rows : List (List DVal)) (event category unit : String)
    (amount : Option ℚ) (divisor : Option ℤ) (frequency : Option String)
    (constraints windows : Option (List String)) (note : Option String) :
    List (List DVal) :=
  rows ++ [addRow event category unit amount divisor frequency
            constraints windows note]

/-! ## Typed event view and the `Scheduler.create` join/sort pipeline -/

/-- A typed event row (one struct per event, the nine input columns). -/
structure EventRow where
  event : String
  category : String
  unit : String
  amount : Option ℚ
  divisor : Option ℤ
  frequency : String
  constraints : List String
  windows : List String
  note : Option String
  deriving DecidableEq, Repr

/-- One record of the engine output struct column: entity name, occurrence
index, and assigned time in minutes since midnight. -/
structure ScheduledInstance where
  entity_name : String
  inst : Nat
  time_minutes : ℤ
  deriving DecidableEq, Repr

/-- A row of the joined result: the scheduled instance together with the
matched original event row; no match leaves the event columns null. -/
abbrev JoinedRow := ScheduledInstance × Option EventRow

/-- The stored rows whose Event column equals the entity name of a scheduled
instance (the join key `entity_name = Event`). -/
def matchesOf (df : List EventRow) (i : ScheduledInstance) : List EventRow :=
  df.filter (fun r => r.event = i.entity_name)

/-- Left-join one scheduled instance against the stored table: one output row
per matching stored row, or a single null-padded row when nothing matches. -/
def joinOne (df : List EventRow) (i : ScheduledInstance) : List JoinedRow :=
  match matchesOf df i with
  | [] => [(i, none)]
  | ms => ms.map (fun r => (i, some r))

/-- `result.join(self._df, left_on="entity_name", right_on="Event",
how="left")`: left rows in order, each expanded by its matches. -/
def leftJoin : List ScheduledInstance → List EventRow → List JoinedRow
  | [], _ => []
  | i :: rest, df => joinOne df i ++ leftJoin rest df

/-- The ordering used by `joined.sort("time_minutes")`. -/
def timeLE (p q : JoinedRow) : Prop :=
  p.1.time_minutes ≤ q.1.time_minutes

instance : DecidableRel timeLE := fun p q =>
  inferInstanceAs (Decidable (p.1.time_minutes ≤ q.1.time_minutes))

instance : IsTotal JoinedRow timeLE :=
  ⟨fun p q => Int.le_total p.1.time_minutes q.1.time_minutes⟩

instance : IsTrans JoinedRow timeLE :=
  ⟨fun _ _ _ h h2 => le_trans h h2⟩

/-- `joined.sort("time_minutes")`, modelled as a stable sort on the
time_minutes key. -/
def sortByTime (l : List JoinedRow) : List JoinedRow :=
  l.insertionSort timeLE

/-- `Scheduler.create`, given the un-nested engine output: left-join the
scheduled instances back to the stored rows on `entity_name = Event`, then
sort the joined rows by time_minutes. -/
def create (out : List ScheduledInstance) (df : List EventRow) :
    List JoinedRow :=
  sortByTime (leftJoin out df)

/-! ## Configuration and keyword plumbing -/

/-- The engine configuration record (§6): exactly these fields. -/
structure Config where
  strategy : String
  day_start : String
  day_end : String
  windows : Option (List String)
  penalty_weight : ℚ
  window_tolerance : ℚ
  debug : Bool
  deriving DecidableEq, Repr

/-- The default argument values of `schedule_events`, read off its signature. -/
def schedule_events_defaults : Config :=
  { strategy := "earliest", day_start := "08:00", day_end := "22:00",
    windows := none, penalty_weight := 3/10, window_tolerance := 0,
    debug := false }

/-- The default argument values of `Scheduler.create`, read off its
signature. -/
def create_defaults : Config :=
  { strategy := "earliest", day_start := "08:00", day_end := "22:00",
    windows := none, penalty_weight := 3/10, window_tolerance := 0,
    debug := false }

/-- The defaults the specification states (§6 Defaults). -/
def spec_defaults : Config :=
  { strategy := "earliest", day_start := "08:00", day_end := "22:00",
    windows := none, penalty_weight := 3/10, window_tolerance := 0,
    debug := false }

/-- A keyword-argument value as serialised for the plugin call. -/
inductive KValue
  | kStr (s : String)
  | kBool (b : Bool)
  | kRat (q : ℚ)
  | kList (l : List String)
  deriving DecidableEq, Repr

/-- The kwargs record `schedule_events` hands to the engine, in dict insertion
order: strategy, day_start, day_end, debug, then windows only when present,
then penalty_weight and window_tolerance. -/
def scheduleEventsKwargs (cfg : Config) : List (String × KValue) :=
  [("strategy", .kStr cfg.strategy),
   ("day_start", .kStr cfg.day_start),
   ("day_end", .kStr cfg.day_end),
   ("debug", .kBool cfg.debug)] ++
  (match cfg.windows with
   | some w => [("windows", .kList w)]
   | none => []) ++
  [("penalty_weight", .kRat cfg.penalty_weight),
   ("window_tolerance", .kRat cfg.window_tolerance)]

/-! ## Spec-modelled scheduling engine fragment

The Rust engine is not part of this source fragment; the pieces below are
modelled from the specification, as their doc comments state. -/

/-- Whitespace as recognised when trimming a frequency string. -/
def isWS (c : Char) : Bool :=
  c = ' ' || c = '\t' || c = '\n' || c = '\r'

/-- Trim whitespace from both ends of a character list. -/
def trimChars (l : List Char) : List Char :=
  ((l.dropWhile isWS).reverse.dropWhile isWS).reverse

/-- Strip a given suffix from a character list, failing when it is not a
suffix. -/
def stripSuffixChars (l suffix : List Char) : Option (List Char) :=
  if suffix.length ≤ l.length ∧ l.drop (l.length - suffix.length) = suffix
  then some (l.take (l.length - suffix.length))
  else none

/-- Strip a given prefix from a character list, failing when it is not a
prefix. -/
def stripPrefixChars (l pre : List Char) : Option (List Char) :=
  if l.take pre.length = pre then some (l.drop pre.length) else none

/-- The numeric value of a decimal digit character. -/
def digitVal (c : Char) : Option ℕ :=
  if '0' ≤ c ∧ c ≤ '9' then some (c.toNat - '0'.toNat) else none

/-- Accumulate a decimal number over a character list; any non-digit fails. -/
def digitsToNatCore : List Char → ℕ → Option ℕ
  | [], acc => some acc
  | c :: cs, acc =>
    match digitVal c with
    | some d => digitsToNatCore cs (acc * 10 + d)
    | none => none

/-- Read a nonempty all-digit character list as a natural number. -/
def digitsToNat (l : List Char) : Option ℕ :=
  if l = [] then none else digitsToNatCore l 0

/-- Modelled from the spec: the frequency expander base count (§4.3).  The
string "Nx daily" with integer N ≥ 1 yields N instances; "every Nh" yields
⌊(day_end − day_start)/(N·60)⌋ + 1; a missing or blank frequency reads as
"1x daily"; anything else is a parse error. -/
def baseInstanceCount (dayStart dayEnd : ℕ) (freq : String) : Option ℕ :=
  let f := trimChars freq.data
  if f = [] then some 1
  else
    match stripSuffixChars f "x daily".data with
    | some numPart =>
      match digitsToNat numPart with
      | some n => if 1 ≤ n then some n else none
      | none => none
    | none =>
      match stripPrefixChars f "every ".data with
      | some rest =>
        match stripSuffixChars rest ['h'] with
        | some numPart =>
          match digitsToNat numPart with
          | some n =>
            if 1 ≤ n then some ((dayEnd - dayStart) / (n * 60) + 1) else none
          | none => none
        | none => none
      | none => none

/-- Modelled from the spec: per-event instance count (§4.3): the base count
multiplied by the divisor when one is set.  The with_event group adjustment
of §4.3 is not modelled; the theorems below only apply this definition to
events whose constraint lists are empty, where that adjustment is vacuous. -/
def n_instances (dayStart dayEnd : ℕ) (e : EventRow) : Option ℕ :=
  (baseInstanceCount dayStart dayEnd e.frequency).map
    (fun n => n * (e.divisor.getD 1).toNat)

/-- Modelled from the spec: expansion of one event into its flattened
occurrence list (§3 Instance, §4.3). -/
def expandEvent (dayStart dayEnd : ℕ) (e : EventRow) :
    Option (List (String × ℕ)) :=
  (n_instances dayStart dayEnd e).map
    (fun n => (List.range n).map (fun k => (e.event, k)))

/-- Modelled from the spec: the instance set of a successful scheduling call.
By I5 the output is total over the expansion: a successful call returns one
scheduled instance per expanded occurrence, so the entity/index multiset of
the result is exactly the concatenated expansion.  Any frequency parse error
fails the whole call (§7). -/
def expandAll (dayStart dayEnd : ℕ) :
    List EventRow → Option (List (String × ℕ))
  | [] => some []
  | e :: rest => do
    let first ← expandEvent dayStart dayEnd e
    let more ← expandAll dayStart dayEnd rest
    pure (first ++ more)

/-- The §4.5 output record ordering: time_minutes ascending, ties broken by
entity_name (lexicographically, as character lists) and then by instance
index. -/
def instLexLE (a b : ScheduledInstance) : Prop :=
  a.time_minutes < b.time_minutes ∨
    (a.time_minutes = b.time_minutes ∧
      (a.entity_name.data < b.entity_name.data ∨
        (a.entity_name = b.entity_name ∧ a.inst ≤ b.inst)))

instance : DecidableRel instLexLE := fun a b =>
  inferInstanceAs (Decidable (a.time_minutes < b.time_minutes ∨
    (a.time_minutes = b.time_minutes ∧
      (a.entity_name.data < b.entity_name.data ∨
        (a.entity_name = b.entity_name ∧ a.inst ≤ b.inst)))))

/-- Everything polars guarantees for `joined.sort("time_minutes")` with the
default maintain_order=False, applied after a left join that itself
guarantees no row order: the returned rows are some permutation of the
joined rows that is nondecreasing in time_minutes; the relative order of
rows with equal time_minutes is unspecified. -/
def sortContract (l result : List JoinedRow) : Prop :=
  result.Perm l ∧ result.Pairwise timeLE

/-! ## Helper lemmas -/

theorem coerceVal_typeMatches (v w : DVal) (dt : DType)
    (h : coerceVal v dt = some w) : typeMatches w dt = true := by
  cases v <;> cases dt <;> simp only [coerceVal, Option.some_inj,
    reduceCtorEq] at h <;> subst h <;> rfl

theorem castRow_conforms (schema : List (String × DType))
    (dict : List (String × DVal)) (r : List DVal)
    (h : castRow schema dict = some r) : rowConforms schema r = true := by
  induction schema generalizing r with
  | nil =>
    simp [castRow] at h
    subst h
    rfl
  | cons c cs ih =>
    cases hv : coerceVal (dictGet dict c.1) c.2 with
    | none => simp [castRow, hv] at h
    | some v =>
      cases hrest : castRow cs dict with
      | none => simp [castRow, hv, hrest] at h
      | some rest =>
        simp only [castRow, hv, hrest, Option.bind_eq_bind, Option.some_bind,
          Option.pure_def, Option.some_inj] at h
        subst h
        simp only [rowConforms, Bool.and_eq_true]
        exact ⟨coerceVal_typeMatches _ _ _ hv, ih rest hrest⟩

theorem castAllRows_conforms (schema : List (String × DType))
    (rows out : List (List DVal)) (h : castAllRows schema rows = some out) :
    out.all (rowConforms _schema) = true := by
  induction rows generalizing out with
  | nil =>
    simp only [castAllRows, Option.some_inj] at h
    subst h
    rfl
  | cons r rs ih =>
    cases hr : castRow _schema (rowToDict schema r) with
    | none => simp [castAllRows, hr] at h
    | some r2 =>
      cases hrest : castAllRows schema rs with
      | none => simp [castAllRows, hr, hrest] at h
      | some rest =>
        simp only [castAllRows, hr, hrest, Option.bind_eq_bind,
          Option.some_bind, Option.pure_def, Option.some_inj] at h
        subst h
        simp only [List.all_cons, Bool.and_eq_true]
        exact ⟨castRow_conforms _ _ _ hr, ih rest hrest⟩

theorem addRow_conforms (event category unit : String) (amount : Option ℚ)
    (divisor : Option ℤ) (frequency : Option String)
    (constraints windows : Option (List String)) (note : Option String) :
    rowConforms _schema (addRow event category unit amount divisor frequency
      constraints windows note) = true := by
  cases amount <;> cases divisor <;> cases note <;> rfl

theorem expandEvent_eq (dS dE : ℕ) (e : EventRow) (first : List (String × ℕ))
    (h : expandEvent dS dE e = some first) :
    ∃ n, n_instances dS dE e = some n ∧
      first = (List.range n).map (fun k => (e.event, k)) := by
  unfold expandEvent at h
  cases hn : n_instances dS dE e with
  | none => rw [hn] at h; cases h
  | some n =>
    rw [hn] at h
    simp only [Option.map_some', Option.some_inj] at h
    exact ⟨n, rfl, h.symm⟩

theorem expandAll_cons (dS dE : ℕ) (e : EventRow) (rest : List EventRow)
    (inst : List (String × ℕ)) (h : expandAll dS dE (e :: rest) = some inst) :
    ∃ first more, expandEvent dS dE e = some first ∧
      expandAll dS dE rest = some more ∧ inst = first ++ more := by
  cases hf : expandEvent dS dE e with
  | none => simp [expandAll, hf] at h
  | some first =>
    cases hm : expandAll dS dE rest with
    | none => simp [expandAll, hf, hm] at h
    | some more =>
      simp only [expandAll, hf, hm, Option.bind_eq_bind, Option.some_bind,
        Option.pure_def, Option.some_inj] at h
      exact ⟨first, more, rfl, rfl, h.symm⟩

theorem expandAll_names (dS dE : ℕ) (events : List EventRow) :
    ∀ inst : List (String × ℕ), expandAll dS dE events = some inst →
      ∀ p ∈ inst, p.1 ∈ events.map EventRow.event := by
  induction events with
  | nil =>
    intro inst h p hp
    simp only [expandAll, Option.some_inj] at h
    subst h
    cases hp
  | cons e rest ih =>
    intro inst h p hp
    obtain ⟨first, more, hf, hm, hinst⟩ := expandAll_cons dS dE e rest inst h
    subst hinst
    rcases List.mem_append.mp hp with h1 | h2
    · obtain ⟨n, _, hfirst⟩ := expandEvent_eq dS dE e first hf
      subst hfirst
      simp only [List.mem_map] at h1
      obtain ⟨k, _, hpk⟩ := h1
      rw [← hpk]
      simp
    · simp only [List.map_cons]
      exact List.mem_cons_of_mem _ (ih more hm p h2)

theorem countP_expand (name ev : String) (n : ℕ) :
    ((List.range n).map (fun k => (ev, k))).countP
      (fun p => decide (p.1 = name)) = if ev = name then n else 0 := by
  split
  case isTrue h =>
    subst h
    have hall : ∀ p ∈ (List.range n).map (fun k => (ev, k)),
        (fun p : String × ℕ => decide (p.1 = ev)) p = true := by
      intro p hp
      simp only [List.mem_map] at hp
      obtain ⟨k, _, hpk⟩ := hp
      rw [← hpk]
      simp
    rw [List.countP_eq_length.mpr hall]
    simp
  case isFalse h =>
    rw [List.countP_eq_zero.mpr]
    intro p hp
    simp only [List.mem_map] at hp
    obtain ⟨k, _, hpk⟩ := hp
    rw [← hpk]
    simp [h]

/-! ## Claim theorems -/

/-- C4: when called without explicit keyword arguments, both `schedule_events`
and `Scheduler.create` use exactly the defaults strategy="earliest",
day_start="08:00", day_end="22:00", windows absent (None),
penalty_weight=0.3, window_tolerance=0.0, debug=False. -/
theorem C4_defaults_match :
    schedule_events_defaults = spec_defaults ∧
      create_defaults = spec_defaults :=
  ⟨rfl, rfl⟩

/-- C5: the keyword-argument record handed to the engine by `schedule_events`
has exactly the keys strategy, day_start, day_end, debug, penalty_weight and
window_tolerance, plus windows if and only if the windows argument is not
None (absent windows are omitted rather than passed as null). -/
theorem C5_kwargs_fields (cfg : Config) :
    (scheduleEventsKwargs cfg).map Prod.fst =
      ["strategy", "day_start", "day_end", "debug"] ++
        (match cfg.windows with
         | some _ => ["windows"]
         | none => []) ++
        ["penalty_weight", "window_tolerance"] ∧
    ("windows" ∈ (scheduleEventsKwargs cfg).map Prod.fst ↔
      cfg.windows ≠ none) := by
  obtain ⟨s, ds, de, w, pw, wt, d⟩ := cfg
  cases w <;> simp [scheduleEventsKwargs]

/-- C6 counterexample: `Scheduler.add` only defaults a missing (None)
frequency; a blank string is stored verbatim, so the stored Frequency for a
blank argument is "" and not "1x daily", contradicting the claim. -/
theorem C6_counterexample :
    (addRow "pill" "medication" "pill" none none (some "") none none
        none)[5]? = some (DVal.vStr "") ∧
      DVal.vStr "" ≠ DVal.vStr "1x daily" :=
  ⟨rfl, by decide⟩

/-- C6 (amended): for every call to `Scheduler.add`, if the frequency
argument is missing (None) the stored Frequency is "1x daily"; any provided
string, including the blank string, is stored verbatim. -/
theorem C6_frequency_default (event category unit : String)
    (amount : Option ℚ) (divisor : Option ℤ)
    (constraints windows : Option (List String)) (note : Option String)
    (s : String) :
    (addRow event category unit amount divisor none constraints windows
        note)[5]? = some (DVal.vStr "1x daily") ∧
    (addRow event category unit amount divisor (some s) constraints windows
        note)[5]? = some (DVal.vStr s) :=
  ⟨rfl, rfl⟩

/-- C9: every `Scheduler.add` call appends exactly one row: the height grows
by one, the previously stored rows are unchanged in content and order, and
the new last row carries the given field values. -/
theorem C9_add_appends_one_row (rows : List (List DVal))
    (event category unit : String) (amount : Option ℚ) (divisor : Option ℤ)
    (frequency : Option String) (constraints windows : Option (List String))
    (note : Option String) :
    (schedulerAdd rows event category unit amount divisor frequency
        constraints windows note).length = rows.length + 1 ∧
    (schedulerAdd rows event category unit amount divisor frequency
        constraints windows note).take rows.length = rows ∧
    (schedulerAdd rows event category unit amount divisor frequency
        constraints windows note).drop rows.length =
      [[DVal.vStr event, DVal.vStr category, DVal.vStr unit,
        amount.elim DVal.null DVal.vF, divisor.elim DVal.null DVal.vI,
        DVal.vStr (frequency.getD "1x daily"),
        DVal.vList (constraints.getD []), DVal.vList (windows.getD []),
        note.elim DVal.null DVal.vStr]] := by
  refine ⟨by simp [schedulerAdd], ?_, ?_⟩
  · exact List.take_left rows _
  · exact List.drop_left rows _

/-- C10: for `Scheduler.add` with constraints or windows omitted (None), the
stored Constraints and Windows cells are empty lists rather than nulls,
while omitted amount, divisor and note are stored as nulls. -/
theorem C10_omitted_arguments (event category unit : String)
    (amount : Option ℚ) (divisor : Option ℤ) (frequency : Option String)
    (constraints windows : Option (List String)) (note : Option String) :
    (addRow event category unit amount divisor frequency none windows
        note)[6]? = some (DVal.vList []) ∧
    (addRow event category unit amount divisor frequency constraints none
        note)[7]? = some (DVal.vList []) ∧
    (addRow event category unit none divisor frequency constraints windows
        note)[3]? = some DVal.null ∧
    (addRow event category unit amount none frequency constraints windows
        note)[4]? = some DVal.null ∧
    (addRow event category unit amount divisor frequency constraints windows
        none)[8]? = some DVal.null :=
  ⟨rfl, rfl, rfl, rfl, rfl⟩

/-- C7: the event table held by a `Scheduler` always conforms to the
nine-field schema, read as Python reads the schema comparison at line 110:
order-insensitive mapping equality.  Whenever construction from a
well-formed DataFrame succeeds, the held table has exactly the nine named
columns with their stated types (a kept frame may carry them in its own
column order) and every row conforms to the held schema; construction from
an absent table yields the empty conforming table; and conformance of a
table in scheduler column order is preserved by every `add` call. -/
theorem C7_schema_invariant (d : DataFrame) (hwf : dfWF d = true)
    (st : DataFrame) (hinit : schedulerInit (some d) = some st)
    (rs : List (List DVal)) (hrs : rs.all (rowConforms _schema) = true)
    (event category unit : String) (amount : Option ℚ) (divisor : Option ℤ)
    (frequency : Option String) (constraints windows : Option (List String))
    (note : Option String) :
    (schemaEqAsMapping st.schema _schema = true ∧ dfWF st = true) ∧
    schedulerInit none = some ⟨_schema, []⟩ ∧
    (schedulerAdd rs event category unit amount divisor frequency constraints
        windows note).all (rowConforms _schema) = true := by
  refine ⟨?_, rfl, ?_⟩
  · simp only [schedulerInit] at hinit
    split at hinit
    · simp only [Option.some_inj] at hinit
      subst hinit
      exact ⟨by decide, rfl⟩
    · split at hinit
      · simp only [Option.some_inj] at hinit
        subst hinit
        rename_i hschema
        exact ⟨hschema, hwf⟩
      · cases hcast : castRows d with
        | none => rw [hcast] at hinit; cases hinit
        | some rows =>
          rw [hcast] at hinit
          simp only [Option.map_some', Option.some_inj] at hinit
          subst hinit
          constructor
          · show schemaEqAsMapping _schema _schema = true
            decide
          · exact castAllRows_conforms d.schema d.rows rows hcast
  · simp only [schedulerAdd, List.all_append, Bool.and_eq_true]
    refine ⟨hrs, ?_⟩
    simp only [List.all_cons, List.all_nil, Bool.and_true]
    exact addRow_conforms event category unit amount divisor frequency
      constraints windows note

/-- C7 witness: a well-formed frame with the nine columns in a permuted
order passes the mapping-equality check and is kept conforming, and an add
on the empty table yields a conforming table. -/
theorem C7_schema_invariant_witness :
    dfWF ⟨[("Amount", .f64), ("Event", .str), ("Category", .str),
        ("Unit", .str), ("Divisor", .i64), ("Frequency", .str),
        ("Constraints", .listStr), ("Windows", .listStr), ("Note", .str)],
      [[.vF 1, .vStr "x", .vStr "c", .vStr "u", .null, .vStr "1x daily",
        .vList [], .vList [], .null]]⟩ = true ∧
    (schemaEqAsMapping
        [("Amount", .f64), ("Event", .str), ("Category", .str),
         ("Unit", .str), ("Divisor", .i64), ("Frequency", .str),
         ("Constraints", .listStr), ("Windows", .listStr), ("Note", .str)]
        _schema = true ∧
      dfWF ⟨[("Amount", .f64), ("Event", .str), ("Category", .str),
          ("Unit", .str), ("Divisor", .i64), ("Frequency", .str),
          ("Constraints", .listStr), ("Windows", .listStr), ("Note", .str)],
        [[.vF 1, .vStr "x", .vStr "c", .vStr "u", .null, .vStr "1x daily",
          .vList [], .vList [], .null]]⟩ = true) ∧
    (schedulerAdd [] "pill" "medication" "pill" none none none none none
        none).all (rowConforms _schema) = true :=
  ⟨by decide,
   (C7_schema_invariant ⟨[("Amount", .f64), ("Event", .str),
        ("Category", .str), ("Unit", .str), ("Divisor", .i64),
        ("Frequency", .str), ("Constraints", .listStr), ("Windows", .listStr),
        ("Note", .str)],
      [[.vF 1, .vStr "x", .vStr "c", .vStr "u", .null, .vStr "1x daily",
        .vList [], .vList [], .null]]⟩ (by decide)
      ⟨[("Amount", .f64), ("Event", .str), ("Category", .str),
        ("Unit", .str), ("Divisor", .i64), ("Frequency", .str),
        ("Constraints", .listStr), ("Windows", .listStr), ("Note", .str)],
      [[.vF 1, .vStr "x", .vStr "c", .vStr "u", .null, .vStr "1x daily",
        .vList [], .vList [], .null]]⟩ (by decide) [] (by decide)
      "pill" "medication" "pill" none none none none none none).1,
   (C7_schema_invariant ⟨[("Amount", .f64), ("Event", .str),
        ("Category", .str), ("Unit", .str), ("Divisor", .i64),
        ("Frequency", .str), ("Constraints", .listStr), ("Windows", .listStr),
        ("Note", .str)],
      [[.vF 1, .vStr "x", .vStr "c", .vStr "u", .null, .vStr "1x daily",
        .vList [], .vList [], .null]]⟩ (by decide)
      ⟨[("Amount", .f64), ("Event", .str), ("Category", .str),
        ("Unit", .str), ("Divisor", .i64), ("Frequency", .str),
        ("Constraints", .listStr), ("Windows", .listStr), ("Note", .str)],
      [[.vF 1, .vStr "x", .vStr "c", .vStr "u", .null, .vStr "1x daily",
        .vList [], .vList [], .null]]⟩ (by decide) [] (by decide)
      "pill" "medication" "pill" none none none none none none).2.2⟩

theorem mem_leftJoin_char (out : List ScheduledInstance) (df : List EventRow)
    (p : JoinedRow) (hp : p ∈ leftJoin out df) :
    (∀ r : EventRow, p.2 = some r → r ∈ df ∧ r.event = p.1.entity_name) ∧
    (p.2 = none → ∀ r ∈ df, r.event ≠ p.1.entity_name) := by
  induction out with
  | nil => cases hp
  | cons i rest ih =>
    simp only [leftJoin] at hp
    rcases List.mem_append.mp hp with h | h
    · unfold joinOne at h
      cases hms : matchesOf df i with
      | nil =>
        rw [hms] at h
        simp only [List.mem_singleton] at h
        subst h
        constructor
        · intro r hr; simp at hr
        · intro _ r hrdf hre
          have hmem : r ∈ matchesOf df i := by
            unfold matchesOf
            rw [List.mem_filter]
            exact ⟨hrdf, by simp [hre]⟩
          rw [hms] at hmem
          cases hmem
      | cons m ms =>
        rw [hms] at h
        simp only [List.mem_map] at h
        obtain ⟨r, hrm, hpe⟩ := h
        subst hpe
        rw [← hms] at hrm
        have hflt := List.mem_filter.mp hrm
        constructor
        · intro r2 hr2
          simp only [Option.some_inj] at hr2
          subst hr2
          exact ⟨hflt.1, of_decide_eq_true hflt.2⟩
        · intro hnone; simp at hnone
    · exact ih h

theorem joinOne_exists (df : List EventRow) (i : ScheduledInstance) :
    ∃ p ∈ joinOne df i, p.1 = i := by
  unfold joinOne
  cases hms : matchesOf df i with
  | nil => exact ⟨(i, none), List.mem_singleton.mpr rfl, rfl⟩
  | cons m ms =>
    refine ⟨(i, some m), ?_, rfl⟩
    simp

theorem exists_mem_leftJoin (out : List ScheduledInstance)
    (df : List EventRow) (i : ScheduledInstance) (hi : i ∈ out) :
    ∃ p ∈ leftJoin out df, p.1 = i := by
  induction out with
  | nil => cases hi
  | cons j rest ih =>
    rcases List.mem_cons.mp hi with h | h
    · subst h
      obtain ⟨p, hp, hpi⟩ := joinOne_exists df i
      exact ⟨p, by simp only [leftJoin]; exact List.mem_append_left _ hp, hpi⟩
    · obtain ⟨p, hp, hpi⟩ := ih h
      exact ⟨p, by simp only [leftJoin]; exact List.mem_append_right _ hp,
        hpi⟩

/-- C2: the result of `Scheduler.create` is exactly the left join of the
un-nested engine records back to the stored input rows on
`entity_name = Event`, reordered by sorting on time_minutes: the output is a
permutation of the join sorted by time_minutes, every output row pairs a
scheduled instance with a stored row matching its entity name (or with nulls
when no stored row matches), and every engine record appears in the
output. -/
theorem C2_create_pipeline (out : List ScheduledInstance)
    (df : List EventRow) :
    (create out df).Perm (leftJoin out df) ∧
    (create out df).Pairwise timeLE ∧
    (∀ p ∈ create out df,
      (∀ r : EventRow, p.2 = some r → r ∈ df ∧ r.event = p.1.entity_name) ∧
      (p.2 = none → ∀ r ∈ df, r.event ≠ p.1.entity_name)) ∧
    (∀ i ∈ out, ∃ p ∈ create out df, p.1 = i) := by
  have hperm : (create out df).Perm (leftJoin out df) :=
    List.perm_insertionSort timeLE (leftJoin out df)
  refine ⟨hperm, List.sorted_insertionSort timeLE (leftJoin out df), ?_, ?_⟩
  · intro p hp
    exact mem_leftJoin_char out df p (hperm.mem_iff.mp hp)
  · intro i hi
    obtain ⟨p, hp, hpi⟩ := exists_mem_leftJoin out df i hi
    exact ⟨p, hperm.mem_iff.mpr hp, hpi⟩

/-- C2 witness: the pipeline at a concrete engine output and stored table. -/
theorem C2_create_pipeline_witness :
    (create [⟨"pill", 0, 960⟩, ⟨"pill", 1, 480⟩]
        [⟨"pill", "medication", "pill", none, none, "2x daily", [], [],
          none⟩]).Perm
      (leftJoin [⟨"pill", 0, 960⟩, ⟨"pill", 1, 480⟩]
        [⟨"pill", "medication", "pill", none, none, "2x daily", [], [],
          none⟩]) ∧
    (create [⟨"pill", 0, 960⟩, ⟨"pill", 1, 480⟩]
        [⟨"pill", "medication", "pill", none, none, "2x daily", [], [],
          none⟩]).Pairwise timeLE :=
  ⟨(C2_create_pipeline [⟨"pill", 0, 960⟩, ⟨"pill", 1, 480⟩]
      [⟨"pill", "medication", "pill", none, none, "2x daily", [], [],
        none⟩]).1,
   (C2_create_pipeline [⟨"pill", 0, 960⟩, ⟨"pill", 1, 480⟩]
      [⟨"pill", "medication", "pill", none, none, "2x daily", [], [],
        none⟩]).2.1⟩

/-- C3 counterexample: the adapter sorts only on time_minutes, with the
polars default maintain_order=False, so the claimed tie order by entity_name
then instance is not guaranteed.  Even for an engine output that is itself
lex-sorted per §4.5, the concrete row sequence that lists entity "b" before
entity "a" at the same time satisfies everything the final sort guarantees
(a permutation of the joined rows, nondecreasing in time_minutes) yet
violates the claimed ordering of equal-time records. -/
theorem C3_counterexample :
    ([⟨"a", 0, 480⟩, ⟨"b", 0, 480⟩] :
        List ScheduledInstance).Pairwise instLexLE ∧
    sortContract (leftJoin [⟨"a", 0, 480⟩, ⟨"b", 0, 480⟩] [])
      [((⟨"b", 0, 480⟩ : ScheduledInstance), (none : Option EventRow)),
       (⟨"a", 0, 480⟩, none)] ∧
    ¬ ([((⟨"b", 0, 480⟩ : ScheduledInstance), (none : Option EventRow)),
        (⟨"a", 0, 480⟩, none)].Pairwise
          (fun p q : JoinedRow => instLexLE p.1 q.1)) := by
  refine ⟨by decide, ⟨by decide, by decide⟩, by decide⟩

/-- C3 (amended): the sequence of records returned by a scheduling call is
sorted by time_minutes ascending; the relative order of records with equal
time_minutes is unspecified.  Every sequence the final sort may return (any
permutation of the joined rows that is nondecreasing in time_minutes) is
sorted by time_minutes ascending, and such a sequence always exists: the
canonical one satisfies the sort contract. -/
theorem C3_time_sorted (out : List ScheduledInstance) (df : List EventRow)
    (result : List JoinedRow)
    (hres : sortContract (leftJoin out df) result) :
    result.Pairwise timeLE ∧
    sortContract (leftJoin out df) (create out df) :=
  ⟨hres.2,
   List.perm_insertionSort timeLE (leftJoin out df),
   List.sorted_insertionSort timeLE (leftJoin out df)⟩

/-- C3 witness: the contract and its time-sortedness at a concrete input. -/
theorem C3_time_sorted_witness :
    sortContract (leftJoin [⟨"a", 0, 480⟩, ⟨"b", 0, 480⟩] [])
      [((⟨"b", 0, 480⟩ : ScheduledInstance), (none : Option EventRow)),
       (⟨"a", 0, 480⟩, none)] ∧
    ([((⟨"b", 0, 480⟩ : ScheduledInstance), (none : Option EventRow)),
        (⟨"a", 0, 480⟩, none)] : List JoinedRow).Pairwise timeLE ∧
    sortContract (leftJoin [⟨"a", 0, 480⟩, ⟨"b", 0, 480⟩] [])
      (create [⟨"a", 0, 480⟩, ⟨"b", 0, 480⟩] []) :=
  ⟨⟨by decide, by decide⟩,
   (C3_time_sorted [⟨"a", 0, 480⟩, ⟨"b", 0, 480⟩] []
     [(⟨"b", 0, 480⟩, none), (⟨"a", 0, 480⟩, none)]
     ⟨by decide, by decide⟩).1,
   (C3_time_sorted [⟨"a", 0, 480⟩, ⟨"b", 0, 480⟩] []
     [(⟨"b", 0, 480⟩, none), (⟨"a", 0, 480⟩, none)]
     ⟨by decide, by decide⟩).2⟩

theorem countP_expandAll (dS dE : ℕ) (e : EventRow) (N : ℕ)
    (hdiv : e.divisor = none)
    (hfreq : baseInstanceCount dS dE e.frequency = some N) :
    ∀ (events : List EventRow) (inst : List (String × ℕ)),
      expandAll dS dE events = some inst → e ∈ events →
      (events.map EventRow.event).Nodup →
      inst.countP (fun p => decide (p.1 = e.event)) = N := by
  intro events
  induction events with
  | nil => intro inst _ he _; cases he
  | cons a rest ih =>
    intro inst hsucc he hnodup
    obtain ⟨first, more, hf, hm, hinst⟩ :=
      expandAll_cons dS dE a rest inst hsucc
    subst hinst
    rw [List.countP_append]
    simp only [List.map_cons, List.nodup_cons] at hnodup
    rcases List.mem_cons.mp he with hea | hea
    · subst hea
      obtain ⟨n, hn, hfirst⟩ := expandEvent_eq dS dE e first hf
      subst hfirst
      have hnN : n = N := by
        unfold n_instances at hn
        rw [hfreq, hdiv] at hn
        simp only [Option.getD_some, Option.getD_none, Option.map_some',
          Option.some_inj, Int.toNat_one, mul_one] at hn
        omega
      subst hnN
      rw [countP_expand e.event e.event n, if_pos rfl]
      have hzero : more.countP (fun p => decide (p.1 = e.event)) = 0 := by
        rw [List.countP_eq_zero]
        intro p hp hdec
        have hmem := expandAll_names dS dE rest more hm p hp
        rw [of_decide_eq_true hdec] at hmem
        exact hnodup.1 hmem
      omega
    · have hne : a.event ≠ e.event := by
        intro hcontr
        exact hnodup.1 (hcontr ▸ List.mem_map_of_mem EventRow.event hea)
      obtain ⟨n, hn, hfirst⟩ := expandEvent_eq dS dE a first hf
      subst hfirst
      rw [countP_expand e.event a.event n, if_neg hne, Nat.zero_add]
      exact ih more hm hea hnodup.2

/-- C1 counterexample: under the §4.3 expander the count is the base
frequency count multiplied by the divisor, so an event with Frequency
"2x daily" and Divisor 2 yields 4 instances, not the 2 the claim states for
every "Nx daily" event. -/
theorem C1_counterexample :
    expandAll 480 1320
        [⟨"pill", "medication", "pill", none, some 2, "2x daily", [], [],
          none⟩] =
      some [("pill", 0), ("pill", 1), ("pill", 2), ("pill", 3)] ∧
    ([("pill", 0), ("pill", 1), ("pill", 2), ("pill", 3)] :
        List (String × ℕ)).countP (fun p => decide (p.1 = "pill")) = 4 ∧
    (4 : ℕ) ≠ 2 :=
  ⟨by decide, by decide, by decide⟩

/-- C1 (amended): for every event whose Frequency parses to base count N per
§4.3 (in particular "Nx daily" with integer N ≥ 1), whose Divisor is null
and whose constraint list is empty, a successful scheduling call returns
exactly N instances for that event, event names being unique per §3. -/
theorem C1_instance_count (dS dE : ℕ) (events : List EventRow)
    (inst : List (String × ℕ)) (e : EventRow) (N : ℕ)
    (hsucc : expandAll dS dE events = some inst) (he : e ∈ events)
    (hnodup : (events.map EventRow.event).Nodup)
    (_hconstr : ∀ e2 ∈ events, e2.constraints = [])
    (hdiv : e.divisor = none)
    (hfreq : baseInstanceCount dS dE e.frequency = some N) :
    inst.countP (fun p => decide (p.1 = e.event)) = N :=
  countP_expandAll dS dE e N hdiv hfreq events inst hsucc he hnodup

/-- C1 witness: a single "2x daily" event with no divisor expands to exactly
two instances. -/
theorem C1_instance_count_witness :
    baseInstanceCount 480 1320 "2x daily" = some 2 ∧
    expandAll 480 1320
        [⟨"pill", "medication", "pill", none, none, "2x daily", [], [],
          none⟩] = some [("pill", 0), ("pill", 1)] ∧
    ([("pill", 0), ("pill", 1)] : List (String × ℕ)).countP
      (fun p => decide (p.1 = "pill")) = 2 :=
  ⟨by decide, by decide,
   C1_instance_count 480 1320
     [⟨"pill", "medication", "pill", none, none, "2x daily", [], [], none⟩]
     [("pill", 0), ("pill", 1)]
     ⟨"pill", "medication", "pill", none, none, "2x daily", [], [], none⟩ 2
     (by decide) (by decide) (by decide) (by decide) rfl (by decide)⟩

/-- C8: scheduling is deterministic: the adapter pipeline, the modelled
engine expansion and the keyword plumbing are pure functions of their
inputs, so identical event tables and identical configuration arguments
give identical outputs. -/
theorem C8_deterministic (out1 out2 : List ScheduledInstance)
    (df1 df2 : List EventRow) (dS1 dS2 dE1 dE2 : ℕ)
    (ev1 ev2 : List EventRow) (cfg1 cfg2 : Config)
    (hout : out1 = out2) (hdf : df1 = df2) (hS : dS1 = dS2) (hE : dE1 = dE2)
    (hev : ev1 = ev2) (hcfg : cfg1 = cfg2) :
    create out1 df1 = create out2 df2 ∧
    expandAll dS1 dE1 ev1 = expandAll dS2 dE2 ev2 ∧
    scheduleEventsKwargs cfg1 = scheduleEventsKwargs cfg2 := by
  subst hout; subst hdf; subst hS; subst hE; subst hev; subst hcfg
  exact ⟨rfl, rfl, rfl⟩

/-- C8 witness: determinism at a concrete input. -/
theorem C8_deterministic_witness :
    create [⟨"pill", 0, 480⟩] [] = create [⟨"pill", 0, 480⟩] [] ∧
    expandAll 480 1320 [] = expandAll 480 1320 [] ∧
    scheduleEventsKwargs spec_defaults = scheduleEventsKwargs spec_defaults :=
  C8_deterministic [⟨"pill", 0, 480⟩] [⟨"pill", 0, 480⟩] [] [] 480 480 1320
    1320 [] [] spec_defaults spec_defaults rfl rfl rfl rfl rfl rfl
